import Mathlib

/-!
Verification of the CelebAMask-HQ ellipse-annotation pipeline.

We give a shallow embedding of the pipeline's data model and operations:

* the ellipse binary codec of `utils.py` (`save_ellipse` / `load_ellipse`,
  wire format `struct.pack("!5f", ...)`: five big-endian IEEE-754
  single-precision floats, 20 bytes);
* the record naming rule `annotation_path` of `utils.py`;
* the contour selection and degeneracy checks of `extractor.fit_ellipse`;
* the per-item control flow of `workers.extract_worker`;
* the success/failure bookkeeping of `parallel.run_parallel` and the
  failure log written by `run.cmd_extract`.

Machine quantities are modelled as `Nat` (with explicit `% 2 ^ w` where
wrap-around matters); file contents are lists of byte values (`Nat`,
reduced `% 256` on decode); fallible operations return `Option` /
`Except`.  Calls into the external OpenCV library (contour extraction,
least-squares ellipse fitting, image decoding, rasterisation) are not
code of this repository; they enter the embedding as explicit parameters
or environment fields, constrained only by the facts the specification
states about them.
-/

namespace EllipsePipeline

/-! ## Definitions -/

/-! ### IEEE-754 single-precision values, at the bit level

`struct.pack("!f", x)` stores `x` rounded to IEEE-754 binary32 and emits
its 32-bit pattern big-endian.  We model a stored value by its binary32
fields: 1 sign bit, 8 exponent bits, 23 mantissa (fraction) bits. -/

structure Float32 where
  sign : Bool
  expField : Fin 256
  mantissa : Fin 8388608
  deriving DecidableEq

/-- The 32-bit pattern of a binary32 value: sign in bit 31, exponent in
bits 30..23, fraction in bits 22..0 (the IEEE-754 single layout). -/
def Float32.toBits (x : Float32) : Nat :=
  (cond x.sign 1 0) * 2147483648 + x.expField.val * 8388608 + x.mantissa.val

/-- Recover the binary32 fields from a (masked) 32-bit pattern. -/
def Float32.ofBits (w : Nat) : Float32 :=
  { sign := decide (w % 4294967296 / 2147483648 = 1)
    expField := ⟨w / 8388608 % 256, Nat.mod_lt _ (by norm_num)⟩
    mantissa := ⟨w % 8388608, Nat.mod_lt _ (by norm_num)⟩ }

/-- Big-endian 4-byte rendering of a 32-bit word (most significant byte
first), as emitted by `struct.pack("!f", ...)`. -/
def bytesBE4 (w : Nat) : List Nat :=
  [w / 16777216 % 256, w / 65536 % 256, w / 256 % 256, w % 256]

/-- Big-endian interpretation of a byte list as an unsigned word; each
byte is reduced `% 256` as a byte read from a file always is. -/
def unpackBE (bs : List Nat) : Nat :=
  bs.foldl (fun a b => a * 256 + b % 256) 0

/-! ### The ellipse descriptor and binary codec (`utils.py`)

```python
_ELLIPSE_FMT = "!5f"
ELLIPSE_KEYS = ("center_x", "center_y", "major_axis", "minor_axis", "rotation_angle")

def save_ellipse(path, ellipse_params):
    data = struct.pack(_ELLIPSE_FMT, float(...cx...), ..., float(...angle...))
    with open(path, "wb") as f:
        f.write(data)

def load_ellipse(path):
    with open(path, "rb") as f:
        vals = struct.unpack(_ELLIPSE_FMT, f.read(20))
    return dict(zip(ELLIPSE_KEYS, vals))
```

`struct.pack("!5f")` rounds each Python float to binary32 and emits five
4-byte big-endian words; a descriptor's fields are therefore modelled as
the stored binary32 values. -/

structure EllipseParams where
  center_x : Float32
  center_y : Float32
  major_axis : Float32
  minor_axis : Float32
  rotation_angle : Float32
  deriving DecidableEq

/-- The byte record produced by `save_ellipse`'s packing step
(`struct.pack("!5f", cx, cy, major, minor, angle)`). -/
def save_ellipse_bytes (p : EllipseParams) : List Nat :=
  bytesBE4 p.center_x.toBits ++ bytesBE4 p.center_y.toBits ++
    bytesBE4 p.major_axis.toBits ++ bytesBE4 p.minor_axis.toBits ++
    bytesBE4 p.rotation_angle.toBits

/-- `load_ellipse` applied to a file with contents `b`: `f.read(20)`
returns the first `min 20 (length b)` bytes of the file, and
`struct.unpack("!5f")` raises `struct.error` unless its buffer is
exactly 20 bytes; otherwise the five big-endian words are unpacked and
zipped with `ELLIPSE_KEYS` in field order. -/
def load_ellipse_bytes (b : List Nat) : Option EllipseParams :=
  let data := b.take 20
  if data.length = 20 then
    some
      { center_x := Float32.ofBits (unpackBE (data.take 4))
        center_y := Float32.ofBits (unpackBE ((data.drop 4).take 4))
        major_axis := Float32.ofBits (unpackBE ((data.drop 8).take 4))
        minor_axis := Float32.ofBits (unpackBE ((data.drop 12).take 4))
        rotation_angle := Float32.ofBits (unpackBE ((data.drop 16).take 4)) }
  else none

/-! ### Record naming (`utils.annotation_path`)

```python
def annotation_path(annotation_dir: str, idx: int) -> str:
    return f"{annotation_dir}/{idx:05d}.bin"
```

Image indices are the values of `range(start, end)` over the dataset and
are non-negative, so `{idx:05d}` is the decimal rendering of `idx`
left-padded with `'0'` to width 5. -/

/-- The character for one decimal digit (`'0'` + d). -/
def decChar (d : Nat) : Char := Char.ofNat (48 + d)

/-- Most-significant-first decimal digits of `n`, with `fuel` bounding
the recursion depth (`n` itself is always enough fuel); `[]` for 0. -/
def decDigitsCore : Nat → Nat → List Nat
  | 0, _ => []
  | _ + 1, 0 => []
  | fuel + 1, n + 1 => decDigitsCore fuel ((n + 1) / 10) ++ [(n + 1) % 10]

/-- Python's decimal rendering `"{:d}".format(n)` for a non-negative
integer. -/
def decRepr (n : Nat) : String :=
  if n = 0 then "0" else String.mk ((decDigitsCore n n).map decChar)

/-- Left-pad a string with `'0'` to width `w` (Python's `0w d` padding
for a non-negative integer rendering). -/
def zfill (w : Nat) (s : String) : String :=
  String.mk (List.replicate (w - s.length) '0' ++ s.toList)

/-- `utils.annotation_path`: the `.bin` record path for image index
`idx` under `annotation_dir`. -/
def annotation_path (annotation_dir : String) (idx : Nat) : String :=
  annotation_dir ++ "/" ++ zfill 5 (decRepr idx) ++ ".bin"

/-- Value of a zero-padded decimal string (each character read as the
digit `toNat c - 48`), used to state that the file name determines the
index. -/
def decVal (s : String) : Nat :=
  (s.toList.map (fun c => c.toNat - 48)).foldl (fun a d => 10 * a + d) 0

/-- Accumulated value of a most-significant-first digit list. -/
def ofDecDigits (l : List Nat) : Nat :=
  l.foldl (fun a d => 10 * a + d) 0

/-! ### Contour selection and degeneracy (`extractor.fit_ellipse`)

```python
def fit_ellipse(mask):
    contours, _ = cv2.findContours(mask, cv2.RETR_EXTERNAL, cv2.CHAIN_APPROX_SIMPLE)
    if not contours:
        raise ValueError("No contour found in mask.")
    largest = max(contours, key=cv2.contourArea)
    if len(largest) < 5:
        raise ValueError("Not enough contour points to fit an ellipse (need ≥ 5).")
    ellipse = cv2.fitEllipse(largest)
    (cx, cy), (major, minor), angle = ellipse
    return float(cx), float(cy), float(major), float(minor), float(angle)
```

`cv2.findContours` and `cv2.fitEllipse` are external library calls: the
contour list and the least-squares fit enter the embedding as
parameters.  `cv2.contourArea` is the Green/shoelace polygon area, which
we define.  Python's `max(xs, key=f)` scans left to right and replaces
the current maximum only when a strictly greater key appears, so on ties
it keeps the earliest element; `pyMaxFold` is that fold. -/

/-- A contour: a closed polygon given by its integer pixel vertices. -/
abbrev Contour : Type := List (Int × Int)

/-- Twice the signed polygon area (shoelace sum over the closed vertex
cycle). -/
def shoelaceSum (c : List (Int × Int)) : Int :=
  match c with
  | [] => 0
  | p :: _ =>
    (c.zip (c.drop 1 ++ [p])).foldl
      (fun a q => a + (q.1.1 * q.2.2 - q.2.1 * q.1.2)) 0

/-- `cv2.contourArea`: the absolute polygon area `|shoelace| / 2`. -/
def contourArea (c : Contour) : ℚ :=
  (Int.natAbs (shoelaceSum c) : ℚ) / 2

/-- Python's `max(x :: xs, key=key)`: left fold keeping the current
element unless a strictly larger key appears. -/
def pyMaxFold {α : Type} (key : α → ℚ) (x : α) (xs : List α) : α :=
  xs.foldl (fun b y => if key b < key y then y else b) x

/-- Result of `cv2.fitEllipse`: centre, full axis lengths, angle in
degrees (real-valued; the numeric fit itself is external). -/
structure FitResult where
  cx : ℚ
  cy : ℚ
  major : ℚ
  minor : ℚ
  angle : ℚ
  deriving DecidableEq

/-- `extractor.fit_ellipse`, as a function of the contour list returned
by `cv2.findContours` and of the external fitting routine `fitE`. -/
def fit_ellipse (fitE : Contour → FitResult) :
    List Contour → Except String FitResult
  | [] => Except.error "No contour found in mask."
  | c :: cs =>
    let largest := pyMaxFold contourArea c cs
    if largest.length < 5 then
      Except.error "Not enough contour points to fit an ellipse (need ≥ 5)."
    else Except.ok (fitE largest)

/-- A grayscale mask: a grid of 8-bit pixel values. -/
abbrev MaskGrid : Type := List (List Nat)

/-- `fit_ellipse` on a mask, with the external contour extractor `fc`
made explicit. -/
def fit_ellipse_mask (fc : MaskGrid → List Contour)
    (fitE : Contour → FitResult) (m : MaskGrid) : Except String FitResult :=
  fit_ellipse fitE (fc m)

/-! ### The extraction worker (`workers.extract_worker`)

The worker unpacks its item, reads the original image only for its
dimensions (`cv2.imread` returning `None` means unreadable), builds the
mask via `build_face_mask` (which raises `FileNotFoundError` or
`IOError`), fits via `fit_ellipse` (which raises `ValueError`), and
catches exactly `(FileNotFoundError, ValueError, IOError)`, returning
`(idx, None)`.  Only on the success path does it write the `.bin`
record, rasterise the pixel count, and optionally write the oval-mask
PNG and the overlay JPEG.  The filesystem and OpenCV outcomes for one
item are an explicit environment. -/

/-- Whether a path string already ends in the separator. -/
def endsWithSlash (a : String) : Bool :=
  a.toList.getLast? = some '/'

/-- `os.path.join(a, b)` for a relative `b`. -/
def pyJoin (a b : String) : String :=
  if a = "" then b else if endsWithSlash a then a ++ b else a ++ "/" ++ b

/-- One work item tuple
`(idx, image_dir, mask_dir, output_dir, images_per_folder, save_mask, save_overlay)`. -/
structure WItem where
  idx : Nat
  image_dir : String
  mask_dir : String
  output_dir : String
  images_per_folder : Nat
  save_mask : Bool
  save_overlay : Bool
  deriving DecidableEq

/-- The exception classes caught at the worker boundary:
`FileNotFoundError` (mask absent), `IOError` (mask unreadable),
`ValueError` (degenerate geometry). -/
inductive WError : Type where
  | fileNotFound
  | ioError
  | valueError
  deriving DecidableEq

/-- Per-item outcomes of the external calls the worker makes. -/
structure ExtractEnv where
  /-- `cv2.imread(img_path)`: `none` if the image cannot be read, else
  its `(height, width)`. -/
  imgDims : Option (Nat × Nat)
  /-- Outcome of `build_face_mask(mask_folder, image_id, target_size)`. -/
  buildMaskResult : Except WError MaskGrid
  /-- Outcome of `fit_ellipse(mask)`, already converted to the stored
  binary32 parameter values. -/
  fitResult : MaskGrid → Except WError EllipseParams
  /-- Pixel count of the rasterised filled ellipse (`cv2.ellipse` +
  `np.sum`), a diagnostic scalar. -/
  rasterCount : EllipseParams → Nat

/-- The info record returned on success: the five ellipse fields plus
the pixel count. -/
structure InfoRec where
  params : EllipseParams
  num_pixels : Nat
  deriving DecidableEq

/-- A file write performed by the worker. -/
inductive WriteEvent : Type where
  | binRecord (path : String) (data : List Nat)
  | maskPng (path : String)
  | overlayJpg (path : String)
  deriving DecidableEq

/-- `workers.extract_worker`: returns `(idx, info | none)` together with
the list of file writes it performs, in order. -/
def extract_worker (env : ExtractEnv) (item : WItem) :
    (Nat × Option InfoRec) × List WriteEvent :=
  let idx := item.idx
  let image_id := zfill 5 (decRepr idx)
  match env.imgDims with
  | none => ((idx, none), [])
  | some _ =>
    match env.buildMaskResult with
    | Except.error _ => ((idx, none), [])
    | Except.ok mask =>
      match env.fitResult mask with
      | Except.error _ => ((idx, none), [])
      | Except.ok params =>
        let bin_path := annotation_path item.output_dir idx
        let num_pixels := env.rasterCount params
        let writes :=
          [WriteEvent.binRecord bin_path (save_ellipse_bytes params)] ++
            (if item.save_mask then
              [WriteEvent.maskPng
                (pyJoin (pyJoin item.output_dir "oval_masks")
                  (image_id ++ "_oval_mask.png"))]
            else []) ++
            (if item.save_overlay then
              [WriteEvent.overlayJpg
                (pyJoin (pyJoin item.output_dir "overlays")
                  (image_id ++ "_overlay.jpg"))]
            else [])
        ((idx, some ⟨params, num_pixels⟩), writes)

/-! ### The batch orchestrator (`parallel.run_parallel`)

```python
future_to_item = {pool.submit(worker_fn, item): item for item in work_items}
for future in tqdm(as_completed(future_to_item), ...):
    item = future_to_item[future]
    try:
        idx, result = future.result()
        if result is None:
            failed.append(item)
        else:
            results.append((idx, result))
    except Exception as exc:
        failed.append(item)
return results, failed
```

Each submitted item's future either raises when its result is asked for
or completes with `(idx, result | None)`; the collection loop visits
every future exactly once, in some completion order.  We model the run
by the list of `(item, outcome)` pairs in that visit order. -/

/-- What `future.result()` does for one item: raise, or return
`(idx, result | None)`. -/
inductive FutureOutcome (α : Type) : Type where
  | raised
  | completed (idx : Nat) (result : Option α)
  deriving DecidableEq

/-- The collection loop of `parallel.run_parallel`: fold the
`(item, outcome)` pairs, appending `(idx, r)` to `results` on a non-null
return and the original item to `failed` on a raise or a null return. -/
def run_parallel {ι α : Type} (outs : List (ι × FutureOutcome α)) :
    List (Nat × α) × List ι :=
  outs.foldl
    (fun acc p =>
      match p.2 with
      | FutureOutcome.raised => (acc.1, acc.2 ++ [p.1])
      | FutureOutcome.completed _ none => (acc.1, acc.2 ++ [p.1])
      | FutureOutcome.completed idx (some r) => (acc.1 ++ [(idx, r)], acc.2))
    ([], [])

/-- The success record one `(item, outcome)` pair contributes:
`(idx, r)` exactly when the call completed with a non-null result. -/
def succOf {ι α : Type} (p : ι × FutureOutcome α) : Option (Nat × α) :=
  match p.2 with
  | FutureOutcome.completed idx (some r) => some (idx, r)
  | _ => none

/-- The failure record one `(item, outcome)` pair contributes: the
original item exactly when the call raised or returned a null result. -/
def failOf {ι α : Type} (p : ι × FutureOutcome α) : Option ι :=
  match p.2 with
  | FutureOutcome.completed _ (some _) => none
  | _ => some p.1

/-! ### The failure log (`run.cmd_extract`)

```python
if failed:
    failed_indices = [item[0] for item in failed]
    fail_log = os.path.join(output_dir, "failed.json")
    with open(fail_log, "w") as f:
        json.dump(failed_indices, f)
```
-/

/-- `json.dump` of a list of integers: `[a, b, ...]`. -/
def jsonIntArray (l : List Nat) : String :=
  "[" ++ String.intercalate ", " (l.map (fun n => decRepr n)) ++ "]"

/-- The failure-log step of `run.cmd_extract`: the `(path, contents)`
file write it performs, or `none` when no item failed. -/
def cmd_extract_faillog (output_dir : String) (failed : List WItem) :
    Option (String × String) :=
  if failed.isEmpty then none
  else
    some (pyJoin output_dir "failed.json",
      jsonIntArray (failed.map (fun item => item.idx)))

/-! ## Theorems -/

/-! ### Codec helper lemmas -/

theorem Float32.toBits_lt (x : Float32) : x.toBits < 4294967296 := by
  obtain ⟨s, ⟨e, he⟩, ⟨m, hm⟩⟩ := x
  cases s <;> simp [Float32.toBits] <;> omega

theorem Float32.ofBits_toBits (x : Float32) : Float32.ofBits x.toBits = x := by
  obtain ⟨s, ⟨e, he⟩, ⟨m, hm⟩⟩ := x
  cases s <;>
    simp only [Float32.ofBits, Float32.toBits, cond_true, cond_false,
      Float32.mk.injEq, Fin.mk.injEq] <;>
    refine ⟨by simp; omega, by omega, by omega⟩

theorem bytesBE4_length (w : Nat) : (bytesBE4 w).length = 4 := rfl

theorem bytesBE4_lt (w : Nat) : ∀ b ∈ bytesBE4 w, b < 256 := by
  intro b hb
  simp [bytesBE4] at hb
  rcases hb with h | h | h | h <;> omega

theorem unpackBE_bytesBE4 (w : Nat) (h : w < 4294967296) :
    unpackBE (bytesBE4 w) = w := by
  simp only [unpackBE, bytesBE4, List.foldl]
  omega

theorem take4_bytesBE4_append (w : Nat) (rest : List Nat) :
    ((bytesBE4 w ++ rest).take 4 = bytesBE4 w) ∧
      ((bytesBE4 w ++ rest).drop 4 = rest) := by
  constructor
  · rw [← bytesBE4_length w]
    exact List.take_left _ _
  · rw [← bytesBE4_length w]
    exact List.drop_left _ _

/-- The decoded field recovered from the 4-byte group at the head of a
byte stream that starts with an encoded binary32 value. -/
theorem decode_head_field (x : Float32) (rest : List Nat) :
    Float32.ofBits (unpackBE ((bytesBE4 x.toBits ++ rest).take 4)) = x ∧
      (bytesBE4 x.toBits ++ rest).drop 4 = rest := by
  refine ⟨?_, (take4_bytesBE4_append _ _).2⟩
  rw [(take4_bytesBE4_append _ _).1, unpackBE_bytesBE4 _ (Float32.toBits_lt x),
    Float32.ofBits_toBits]

/-! ### C1, C2, C3: the binary codec -/

/-- C1: for every descriptor with all five numeric fields present, the
packing step of `save_ellipse` produces exactly 20 bytes, consisting of
five consecutive 4-byte groups that, read as big-endian IEEE-754
single-precision words, are the fields in the fixed order `center_x,
center_y, major_axis, minor_axis, rotation_angle`. -/
theorem save_ellipse_record_layout (p : EllipseParams) :
    (save_ellipse_bytes p).length = 20 ∧
    (∀ b ∈ save_ellipse_bytes p, b < 256) ∧
    ∃ g1 g2 g3 g4 g5 : List Nat,
      save_ellipse_bytes p = g1 ++ g2 ++ g3 ++ g4 ++ g5 ∧
      g1.length = 4 ∧ g2.length = 4 ∧ g3.length = 4 ∧ g4.length = 4 ∧
      g5.length = 4 ∧
      Float32.ofBits (unpackBE g1) = p.center_x ∧
      Float32.ofBits (unpackBE g2) = p.center_y ∧
      Float32.ofBits (unpackBE g3) = p.major_axis ∧
      Float32.ofBits (unpackBE g4) = p.minor_axis ∧
      Float32.ofBits (unpackBE g5) = p.rotation_angle := by
  refine ⟨?_, ?_, bytesBE4 p.center_x.toBits, bytesBE4 p.center_y.toBits,
    bytesBE4 p.major_axis.toBits, bytesBE4 p.minor_axis.toBits,
    bytesBE4 p.rotation_angle.toBits, rfl, rfl, rfl, rfl, rfl, rfl,
    ?_, ?_, ?_, ?_, ?_⟩
  · simp [save_ellipse_bytes, bytesBE4]
  · intro b hb
    simp only [save_ellipse_bytes, List.mem_append] at hb
    rcases hb with ((((h | h) | h) | h) | h) <;> exact bytesBE4_lt _ _ h
  all_goals
    rw [unpackBE_bytesBE4 _ (Float32.toBits_lt _), Float32.ofBits_toBits]

/-- C2: decoding the bytes produced by encoding a descriptor returns the
descriptor unchanged.  Descriptor fields are modelled as the stored
binary32 values (the float-to-binary32 rounding performed inside
`struct.pack("!5f", ...)` has already been applied to them), so the
round trip is exact at float32 precision. -/
theorem load_save_ellipse_roundtrip (p : EllipseParams) :
    load_ellipse_bytes (save_ellipse_bytes p) = some p := by
  obtain ⟨x1, x2, x3, x4, x5⟩ := p
  show some
      (⟨Float32.ofBits (unpackBE (bytesBE4 x1.toBits)),
        Float32.ofBits (unpackBE (bytesBE4 x2.toBits)),
        Float32.ofBits (unpackBE (bytesBE4 x3.toBits)),
        Float32.ofBits (unpackBE (bytesBE4 x4.toBits)),
        Float32.ofBits (unpackBE (bytesBE4 x5.toBits))⟩ : EllipseParams) =
      some ⟨x1, x2, x3, x4, x5⟩
  simp only [unpackBE_bytesBE4 _ (Float32.toBits_lt _), Float32.ofBits_toBits]

/-- C3, counterexample: a 21-byte input does not have length 20, yet
`load_ellipse` decodes it (from its first 20 bytes) instead of failing:
`f.read(20)` truncates a longer file and `struct.unpack` then sees a
20-byte buffer. -/
theorem load_ellipse_long_input_decodes :
    (List.replicate 21 0).length ≠ 20 ∧
      load_ellipse_bytes (List.replicate 21 0) ≠ none := by decide

/-- C3, amended: `load_ellipse` fails exactly when the input holds fewer
than 20 bytes; with 20 or more bytes it decodes the first 20 and returns
a descriptor. -/
theorem load_ellipse_fails_iff_short (b : List Nat) :
    load_ellipse_bytes b = none ↔ b.length < 20 := by
  simp only [load_ellipse_bytes, List.length_take]
  rcases Nat.lt_or_ge b.length 20 with h | h
  · rw [if_neg (by omega)]
    simpa using h
  · rw [if_pos (by omega)]
    simp
    omega

/-- C3, amended, witness: the empty input is shorter than 20 bytes and
decoding it fails. -/
theorem load_ellipse_fails_iff_short_witness :
    load_ellipse_bytes [] = none :=
  (load_ellipse_fails_iff_short []).mpr (by decide)

/-! ### Decimal-rendering lemmas for `annotation_path` -/

theorem decChar_toNat (d : Nat) (h : d < 10) : (decChar d).toNat = 48 + d := by
  interval_cases d <;> rfl

theorem decChar_isDigit (d : Nat) (h : d < 10) : (decChar d).isDigit := by
  interval_cases d <;> rfl

theorem decDigitsCore_lt (fuel n : Nat) :
    ∀ d ∈ decDigitsCore fuel n, d < 10 := by
  induction fuel generalizing n with
  | zero => simp [decDigitsCore]
  | succ f ih =>
    cases n with
    | zero => simp [decDigitsCore]
    | succ m =>
      intro d hd
      simp only [decDigitsCore, List.mem_append, List.mem_singleton] at hd
      rcases hd with h | h
      · exact ih _ _ h
      · omega

theorem ofDecDigits_append_singleton (l : List Nat) (d : Nat) :
    ofDecDigits (l ++ [d]) = 10 * ofDecDigits l + d := by
  simp [ofDecDigits, List.foldl_append]

theorem ofDecDigits_decDigitsCore (fuel n : Nat) (h : n ≤ fuel) :
    ofDecDigits (decDigitsCore fuel n) = n := by
  induction fuel generalizing n with
  | zero =>
    interval_cases n
    rfl
  | succ f ih =>
    cases n with
    | zero => rfl
    | succ m =>
      have hdiv : (m + 1) / 10 < m + 1 := Nat.div_lt_self (Nat.succ_pos m) (by norm_num)
      rw [show decDigitsCore (f + 1) (m + 1) =
            decDigitsCore f ((m + 1) / 10) ++ [(m + 1) % 10] from rfl,
        ofDecDigits_append_singleton, ih _ (by omega)]
      omega

theorem ofDecDigits_replicate_zero (k : Nat) (l : List Nat) :
    ofDecDigits (List.replicate k 0 ++ l) = ofDecDigits l := by
  induction k with
  | zero => rfl
  | succ j ih =>
    rw [show List.replicate (j + 1) 0 ++ l = 0 :: (List.replicate j 0 ++ l) by
      simp [List.replicate]]
    simpa [ofDecDigits] using ih

theorem decDigitsCore_length_le (fuel n k : Nat) (hk : n < 10 ^ k) :
    (decDigitsCore fuel n).length ≤ k := by
  induction fuel generalizing n k with
  | zero => simp [decDigitsCore]
  | succ f ih =>
    cases n with
    | zero => simp [decDigitsCore]
    | succ m =>
      cases k with
      | zero => simp at hk
      | succ j =>
        have hdiv : (m + 1) / 10 < 10 ^ j := by
          rw [Nat.div_lt_iff_lt_mul (by norm_num)]
          calc m + 1 < 10 ^ (j + 1) := hk
            _ = 10 ^ j * 10 := by ring
        simpa [decDigitsCore] using ih ((m + 1) / 10) j hdiv

theorem decRepr_length_le (idx : Nat) (h : idx < 100000) :
    (decRepr idx).length ≤ 5 := by
  by_cases h0 : idx = 0
  · subst h0; decide
  · rw [decRepr, if_neg h0]
    have := decDigitsCore_length_le idx idx 5 (by norm_num; omega)
    simpa using this

theorem zfill_length (w : Nat) (s : String) :
    (zfill w s).length = max w s.length := by
  show (List.replicate (w - s.length) '0' ++ s.toList).length = max w s.length
  have : s.toList.length = s.length := rfl
  simp [this]
  omega

theorem decVal_zfill_decRepr (idx : Nat) :
    decVal (zfill 5 (decRepr idx)) = idx := by
  by_cases h0 : idx = 0
  · subst h0; decide
  · rw [decRepr, if_neg h0]
    show ofDecDigits
        ((List.replicate (5 - (String.mk ((decDigitsCore idx idx).map decChar)).length) '0' ++
            (decDigitsCore idx idx).map decChar).map (fun c => c.toNat - 48)) = idx
    rw [List.map_append, List.map_replicate, List.map_map]
    have hz : (('0' : Char).toNat - 48) = 0 := rfl
    have hmap : (decDigitsCore idx idx).map ((fun c => c.toNat - 48) ∘ decChar) =
        (decDigitsCore idx idx).map id := by
      apply List.map_congr_left
      intro d hd
      have := decDigitsCore_lt idx idx d hd
      simp [Function.comp, decChar_toNat d this]
    rw [hz, hmap, List.map_id, ofDecDigits_replicate_zero,
      ofDecDigits_decDigitsCore idx idx le_rfl]

theorem zfill_decRepr_isDigit (idx : Nat) :
    ∀ c ∈ (zfill 5 (decRepr idx)).toList, c.isDigit := by
  intro c hc
  by_cases h0 : idx = 0
  · subst h0
    have he : (zfill 5 (decRepr 0)).toList = ['0', '0', '0', '0', '0'] := rfl
    rw [he] at hc
    simp at hc
    subst hc
    decide
  · rw [decRepr, if_neg h0] at hc
    have hc' : c ∈ List.replicate
          (5 - (String.mk ((decDigitsCore idx idx).map decChar)).length) '0' ++
          (decDigitsCore idx idx).map decChar := hc
    rcases List.mem_append.mp hc' with h | h
    · rw [List.eq_of_mem_replicate h]
      decide
    · rcases List.mem_map.mp h with ⟨d, hd, rfl⟩
      exact decChar_isDigit d (decDigitsCore_lt idx idx d hd)

/-! ### C9: the record naming rule -/

/-- C9: for every output directory and image index, `annotation_path`
returns the directory, a `/`, the index rendered as a decimal numeral
left-padded with zeros to (at least) 5 digits, and the fixed extension
`.bin`; the padded numeral consists of decimal digits only, has exactly
5 characters whenever the index is below 100000, and evaluates back to
the index. -/
theorem annotation_path_format (dir : String) (idx : Nat) :
    annotation_path dir idx = dir ++ "/" ++ zfill 5 (decRepr idx) ++ ".bin" ∧
    (zfill 5 (decRepr idx)).length = max 5 (decRepr idx).length ∧
    (idx < 100000 → (zfill 5 (decRepr idx)).length = 5) ∧
    (∀ c ∈ (zfill 5 (decRepr idx)).toList, c.isDigit) ∧
    decVal (zfill 5 (decRepr idx)) = idx := by
  refine ⟨rfl, zfill_length 5 (decRepr idx), ?_, zfill_decRepr_isDigit idx,
    decVal_zfill_decRepr idx⟩
  intro h
  have := decRepr_length_le idx h
  rw [zfill_length]
  omega

/-- C9, witness: at index 30 the padded numeral has exactly 5
characters (and the path is `out/00030.bin`). -/
theorem annotation_path_format_witness :
    (zfill 5 (decRepr 30)).length = 5 ∧
      annotation_path "out" 30 = "out/00030.bin" :=
  ⟨(annotation_path_format "out" 30).2.2.1 (by norm_num), by decide⟩

/-! ### Python `max(xs, key=f)` keeps the first maximum -/

/-- The fold behind `max(x :: xs, key=key)`: the result is an element of
the list, its key is maximal, and every element strictly before it in
the list has a strictly smaller key (so ties keep the earliest
element). -/
theorem pyMaxFold_spec {α : Type} (key : α → ℚ) (x : α) (xs : List α) :
    pyMaxFold key x xs ∈ x :: xs ∧
    (∀ y ∈ x :: xs, key y ≤ key (pyMaxFold key x xs)) ∧
    ∃ l r, x :: xs = l ++ pyMaxFold key x xs :: r ∧
      ∀ y ∈ l, key y < key (pyMaxFold key x xs) := by
  induction xs generalizing x with
  | nil =>
    refine ⟨List.mem_singleton_self x, ?_, [], [], rfl, by simp⟩
    intro y hy
    rw [List.mem_singleton.mp hy]
    exact le_refl _
  | cons z zs ih =>
    by_cases hxz : key x < key z
    · have hfold : pyMaxFold key x (z :: zs) = pyMaxFold key z zs := by
        simp [pyMaxFold, hxz]
      obtain ⟨hmem, hmax, l, r, hdec, hlt⟩ := ih z
      rw [hfold]
      have hzM : key z ≤ key (pyMaxFold key z zs) := hmax z (List.mem_cons_self z zs)
      refine ⟨List.mem_cons_of_mem x hmem, ?_, x :: l, r, ?_, ?_⟩
      · intro y hy
        rcases List.mem_cons.mp hy with rfl | hy'
        · exact le_of_lt (lt_of_lt_of_le hxz hzM)
        · exact hmax y hy'
      · rw [List.cons_append, ← hdec]
      · intro y hy
        rcases List.mem_cons.mp hy with rfl | hy'
        · exact lt_of_lt_of_le hxz hzM
        · exact hlt y hy'
    · have hfold : pyMaxFold key x (z :: zs) = pyMaxFold key x zs := by
        simp [pyMaxFold, hxz]
      obtain ⟨hmem, hmax, l, r, hdec, hlt⟩ := ih x
      rw [hfold]
      have hzle : key z ≤ key x := le_of_not_lt hxz
      have hxM : key x ≤ key (pyMaxFold key x zs) := hmax x (List.mem_cons_self x zs)
      cases l with
      | nil =>
        injection hdec with hM hr
        refine ⟨?_, ?_, [], z :: zs, ?_, by simp⟩
        · rw [← hM]
          exact List.mem_cons_self x (z :: zs)
        · intro y hy
          rcases List.mem_cons.mp hy with rfl | hy'
          · exact hxM
          rcases List.mem_cons.mp hy' with rfl | hy''
          · exact le_trans hzle hxM
          · exact hmax y (List.mem_cons_of_mem x hy'')
        · rw [← hM]
          rfl
      | cons a l' =>
        injection hdec with ha hzs
        subst ha
        refine ⟨?_, ?_, x :: z :: l', r, ?_, ?_⟩
        · rcases List.mem_cons.mp hmem with h | hy'
          · rw [h]
            exact List.mem_cons_self _ _
          · exact List.mem_cons_of_mem x (List.mem_cons_of_mem z hy')
        · intro y hy
          rcases List.mem_cons.mp hy with rfl | hy'
          · exact hxM
          rcases List.mem_cons.mp hy' with rfl | hy''
          · exact le_trans hzle hxM
          · exact hmax y (List.mem_cons_of_mem x hy'')
        · exact congrArg (fun t => x :: z :: t) hzs
        · have hxlt : key x < key (pyMaxFold key x zs) :=
            hlt x (List.mem_cons_self x l')
          intro y hy
          rcases List.mem_cons.mp hy with rfl | hy'
          · exact hxlt
          rcases List.mem_cons.mp hy' with rfl | hy''
          · exact lt_of_le_of_lt hzle hxlt
          · exact hlt y (List.mem_cons_of_mem x hy'')

/-! ### C4, C5: degeneracy and largest-contour selection -/

/-- C4: with the external contour extractor yielding no boundaries on a
mask with no non-zero pixels (as the spec states of `cv2.findContours`
with `RETR_EXTERNAL`), `fit_ellipse` on a fully-zero mask fails with the
"no usable region" error, and whenever the selected largest boundary has
fewer than 5 points it fails with the degenerate-contour error; in both
cases an error is returned, never a fit result. -/
theorem fit_ellipse_degenerate (fc : MaskGrid → List Contour)
    (fitE : Contour → FitResult)
    (hfc : ∀ m : MaskGrid, (∀ row ∈ m, ∀ v ∈ row, v = 0) → fc m = []) :
    (∀ m : MaskGrid, (∀ row ∈ m, ∀ v ∈ row, v = 0) →
      fit_ellipse_mask fc fitE m = Except.error "No contour found in mask.") ∧
    (∀ (c : Contour) (cs : List Contour),
      (pyMaxFold contourArea c cs).length < 5 →
      fit_ellipse fitE (c :: cs) =
        Except.error "Not enough contour points to fit an ellipse (need ≥ 5).") := by
  constructor
  · intro m hm
    rw [fit_ellipse_mask, hfc m hm]
    rfl
  · intro c cs h5
    simp only [fit_ellipse]
    rw [if_pos h5]

/-- C4, witness: a concrete all-zero mask yields the "no usable region"
error, and a concrete 3-point contour yields the degenerate-contour
error. -/
theorem fit_ellipse_degenerate_witness :
    fit_ellipse_mask (fun _ => []) (fun _ => ⟨1, 1, 1, 1, 1⟩) [[0, 0], [0]] =
        Except.error "No contour found in mask." ∧
      fit_ellipse (fun _ => ⟨1, 1, 1, 1, 1⟩) [[((0 : Int), (0 : Int)), (1, 0), (0, 1)]] =
        Except.error "Not enough contour points to fit an ellipse (need ≥ 5)." := by
  have h := fit_ellipse_degenerate (fun _ => []) (fun _ => ⟨1, 1, 1, 1, 1⟩)
    (fun _ _ => rfl)
  exact ⟨h.1 [[0, 0], [0]] (by decide),
    h.2 [((0 : Int), (0 : Int)), (1, 0), (0, 1)] [] (by decide)⟩

/-- C5: for every mask with at least one external boundary (contour
list `c :: cs`), the boundary `fit_ellipse` selects is an element of the
list, has maximal enclosed area, is the first element of the list
attaining that area (every earlier boundary has strictly smaller area,
so equal-area ties keep the earliest boundary — deterministic for a
fixed list), and when it has at least 5 points `fit_ellipse` fits
exactly this boundary. -/
theorem fit_ellipse_selects_largest (fitE : Contour → FitResult)
    (c : Contour) (cs : List Contour) :
    pyMaxFold contourArea c cs ∈ c :: cs ∧
    (∀ x ∈ c :: cs, contourArea x ≤ contourArea (pyMaxFold contourArea c cs)) ∧
    (∃ l r, c :: cs = l ++ pyMaxFold contourArea c cs :: r ∧
      ∀ x ∈ l, contourArea x < contourArea (pyMaxFold contourArea c cs)) ∧
    (5 ≤ (pyMaxFold contourArea c cs).length →
      fit_ellipse fitE (c :: cs) = Except.ok (fitE (pyMaxFold contourArea c cs))) := by
  obtain ⟨hmem, hmax, hfirst⟩ := pyMaxFold_spec contourArea c cs
  refine ⟨hmem, hmax, hfirst, ?_⟩
  intro h5
  simp only [fit_ellipse]
  rw [if_neg (Nat.not_lt.mpr h5)]

/-- C5, witness: on a one-contour list whose contour has 5 points, the
fit runs on that contour. -/
theorem fit_ellipse_selects_largest_witness :
    fit_ellipse (fun _ => ⟨2, 2, 4, 4, 0⟩)
        [[((0 : Int), (0 : Int)), (4, 0), (4, 4), (0, 4), (2, 0)]] =
      Except.ok ⟨2, 2, 4, 4, 0⟩ := by
  have h := (fit_ellipse_selects_largest (fun _ => ⟨2, 2, 4, 4, 0⟩)
    [((0 : Int), (0 : Int)), (4, 0), (4, 4), (0, 4), (2, 0)] []).2.2.2 (by decide)
  simpa using h

/-! ### C6: the extraction worker swallows errors and writes nothing on failure -/

/-- C6: whenever the original image cannot be read, or the mask loader
or the ellipse fitter fails with one of its errors (`FileNotFoundError`,
`IOError`, `ValueError` — all caught by the worker), `extract_worker`
returns `(idx, None)` and performs no file write at all, in particular
no `.bin` record; conversely a `.bin` record write occurs only on the
success path, carries the encoded fitted parameters at the per-index
record path, and is accompanied by a successful `(idx, info)` return. -/
theorem extract_worker_failure_isolation (env : ExtractEnv) (item : WItem) :
    ((env.imgDims = none ∨ (∃ e, env.buildMaskResult = Except.error e) ∨
        (∃ m e, env.buildMaskResult = Except.ok m ∧
          env.fitResult m = Except.error e)) →
      extract_worker env item = ((item.idx, none), [])) ∧
    (∀ pth data, WriteEvent.binRecord pth data ∈ (extract_worker env item).2 →
      ∃ m p, env.buildMaskResult = Except.ok m ∧ env.fitResult m = Except.ok p ∧
        env.imgDims ≠ none ∧
        pth = annotation_path item.output_dir item.idx ∧
        data = save_ellipse_bytes p ∧
        (extract_worker env item).1 = (item.idx, some ⟨p, env.rasterCount p⟩)) := by
  obtain ⟨dims, bm, fr, rc⟩ := env
  obtain ⟨idx, d1, d2, d3, nf, sm, so⟩ := item
  cases dims with
  | none =>
    refine ⟨fun _ => rfl, ?_⟩
    intro pth data hmem
    simp [extract_worker] at hmem
  | some d =>
    cases bm with
    | error e0 =>
      refine ⟨fun _ => rfl, ?_⟩
      intro pth data hmem
      simp [extract_worker] at hmem
    | ok m0 =>
      cases hfr : fr m0 with
      | error e0 =>
        constructor
        · intro _
          simp [extract_worker, hfr]
        · intro pth data hmem
          simp [extract_worker, hfr] at hmem
      | ok p0 =>
        constructor
        · rintro (h | ⟨e, h⟩ | ⟨m, e, hm, hf⟩)
          · exact absurd h (by simp)
          · exact absurd h (by simp)
          · injection hm with hm'
            subst hm'
            have hf' : fr m0 = Except.error e := hf
            rw [hfr] at hf'
            exact absurd hf' (by simp)
        · intro pth data hmem
          refine ⟨m0, p0, rfl, hfr, by simp, ?_, ?_, by simp [extract_worker, hfr]⟩ <;>
            cases sm <;> cases so <;>
            simp [extract_worker, hfr] at hmem <;>
            simp [hmem]

/-- C6, witness: with an unreadable image (and failing loader and
fitter), the worker returns `(idx, None)` and writes nothing. -/
theorem extract_worker_failure_isolation_witness :
    extract_worker
        ⟨none, Except.error WError.fileNotFound,
          fun _ => Except.error WError.valueError, fun _ => 0⟩
        ⟨7, "imgdir", "maskdir", "outdir", 2000, false, false⟩ =
      ((7, none), []) :=
  (extract_worker_failure_isolation _ _).1 (Or.inl rfl)

/-! ### C7, C10: orchestrator bookkeeping -/

/-- The collection fold of `run_parallel` computes exactly the
`filterMap`s of the per-item success and failure contributions. -/
theorem run_parallel_eq_filterMap {ι α : Type}
    (outs : List (ι × FutureOutcome α)) :
    run_parallel outs = (outs.filterMap succOf, outs.filterMap failOf) := by
  suffices h : ∀ acc : List (Nat × α) × List ι,
      outs.foldl
        (fun acc p =>
          match p.2 with
          | FutureOutcome.raised => (acc.1, acc.2 ++ [p.1])
          | FutureOutcome.completed _ none => (acc.1, acc.2 ++ [p.1])
          | FutureOutcome.completed idx (some r) => (acc.1 ++ [(idx, r)], acc.2))
        acc =
      (acc.1 ++ outs.filterMap succOf, acc.2 ++ outs.filterMap failOf) by
    simpa [run_parallel] using h ([], [])
  induction outs with
  | nil => intro acc; simp
  | cons p ps ih =>
    intro acc
    obtain ⟨it, o⟩ := p
    cases o with
    | raised => simp [succOf, failOf, ih]
    | completed idx result =>
      cases result with
      | none => simp [succOf, failOf, ih]
      | some r => simp [succOf, failOf, ih]

/-- C7: `run_parallel` records `(idx, r)` as a success for exactly the
items whose call completed without raising and returned a non-null
result `r`; every item whose call raised or returned a null result is
recorded in the failure list paired with its original item; every
submitted item is processed (the fold is total over the whole outcome
list, so no per-item failure aborts the run or raises). -/
theorem run_parallel_classification {ι α : Type}
    (outs : List (ι × FutureOutcome α)) :
    (run_parallel outs).1 = outs.filterMap succOf ∧
    (run_parallel outs).2 = outs.filterMap failOf ∧
    (∀ (it : ι) (idx : Nat) (r : α),
      (it, FutureOutcome.completed idx (some r)) ∈ outs →
        (idx, r) ∈ (run_parallel outs).1) ∧
    (∀ (it : ι) (o : FutureOutcome α), (it, o) ∈ outs →
      (∀ (idx : Nat) (r : α), o ≠ FutureOutcome.completed idx (some r)) →
        it ∈ (run_parallel outs).2) := by
  have h := run_parallel_eq_filterMap outs
  have h1 : (run_parallel outs).1 = outs.filterMap succOf := by rw [h]
  have h2 : (run_parallel outs).2 = outs.filterMap failOf := by rw [h]
  refine ⟨h1, h2, ?_, ?_⟩
  · intro it idx r hmem
    rw [h1]
    exact List.mem_filterMap.mpr ⟨(it, FutureOutcome.completed idx (some r)), hmem, rfl⟩
  · intro it o hmem hno
    rw [h2]
    refine List.mem_filterMap.mpr ⟨(it, o), hmem, ?_⟩
    cases o with
    | raised => rfl
    | completed idx result =>
      cases result with
      | none => rfl
      | some r => exact absurd rfl (hno idx r)

/-- C7, witness: a raised call and a null result land in the failure
list paired with their items, the non-null completion in the success
list. -/
theorem run_parallel_classification_witness :
    run_parallel
        [(("a" : String), (FutureOutcome.raised : FutureOutcome Nat)),
          ("b", FutureOutcome.completed 1 none),
          ("c", FutureOutcome.completed 2 (some 5))] =
      ([(2, 5)], ["a", "b"]) := by
  have h := run_parallel_classification
    [(("a" : String), (FutureOutcome.raised : FutureOutcome Nat)),
      ("b", FutureOutcome.completed 1 none),
      ("c", FutureOutcome.completed 2 (some 5))]
  rw [Prod.ext_iff]
  exact ⟨h.1.trans (by decide), h.2.1.trans (by decide)⟩

/-- C10: `run_parallel` partitions its input — every submitted item
contributes to exactly one of the two returned lists, so their lengths
sum to the number of input items. -/
theorem run_parallel_partitions {ι α : Type}
    (outs : List (ι × FutureOutcome α)) :
    (run_parallel outs).1.length + (run_parallel outs).2.length =
      outs.length := by
  rw [run_parallel_eq_filterMap]
  induction outs with
  | nil => rfl
  | cons p ps ih =>
    obtain ⟨it, o⟩ := p
    cases o with
    | raised =>
      simp only [List.filterMap_cons, succOf, failOf, List.length_cons]
      simp at ih ⊢
      omega
    | completed idx result =>
      cases result with
      | none =>
        simp only [List.filterMap_cons, succOf, failOf, List.length_cons]
        simp at ih ⊢
        omega
      | some r =>
        simp only [List.filterMap_cons, succOf, failOf, List.length_cons]
        simp at ih ⊢
        omega

/-! ### C8: the failure log -/

/-- C8: after a batch run, when the failure list is non-empty the
orchestrating command writes to `failed.json` in the output directory a
JSON array holding exactly the integer image indices of the failed
items (each work item's first tuple component); when no item failed, no
such write occurs. -/
theorem cmd_extract_writes_faillog (output_dir : String)
    (failed : List WItem) :
    (failed ≠ [] → cmd_extract_faillog output_dir failed =
      some (pyJoin output_dir "failed.json",
        jsonIntArray (failed.map (fun item => item.idx)))) ∧
    (failed = [] → cmd_extract_faillog output_dir failed = none) := by
  constructor
  · intro h
    rw [cmd_extract_faillog, if_neg (by simpa using h)]
  · rintro rfl
    rfl

/-- C8, witness: one failed item with index 7 produces the write of
`[7]` to `out/failed.json`; no failed item produces no write. -/
theorem cmd_extract_writes_faillog_witness :
    cmd_extract_faillog "out" [⟨7, "i", "m", "out", 2000, false, false⟩] =
        some ("out/failed.json", "[7]") ∧
      cmd_extract_faillog "out" [] = none := by
  refine ⟨?_, (cmd_extract_writes_faillog "out" []).2 rfl⟩
  have h := (cmd_extract_writes_faillog "out"
    [⟨7, "i", "m", "out", 2000, false, false⟩]).1 (by simp)
  rw [h]
  decide

end EllipsePipeline
